import Mathlib

/-!
Verification of the tiled multi-core softmax kernels of this repository.

The repository contains two Ascend C softmax kernels:

* `tasks/04-softmax-ascend/Kozhevatov/softmax_custom.cpp` (Variant A): a
  two-pass, unstabilized row softmax over a 64 x 64 matrix, 16 execution
  units, 4 rows per unit, each row tiled into `TILE_NUM * BUFFER_NUM = 4`
  tiles of `TILE_LENGTH = 16` elements.
* `tasks/05-mixed-ascend/Kozhevatov/softmax_custom.cpp` with
  `config.h` (Variant B): a three-pass max-stabilized softmax over a flat
  region of `BLOCK_LENGTH = 96` elements per execution unit (96 units over
  a 96 x 96 matrix), tiled into `TILE_NUM * BUFFER_NUM = 2` tiles of
  `TILE_LENGTH = 48` elements.

Machine floating point is modelled by exact real arithmetic (`ℝ` with
`Real.exp`); indices and sizes are modelled by `ℕ`.  Each kernel's
per-unit computation is embedded as a function from the unit's input
region (a map `ℕ → ℝ`, indexed relative to the unit's base offset) to its
output region.
-/

namespace Softmax04

/-- `constexpr long BLOCK_DIM = 16` — number of execution units. -/
def BLOCK_DIM : ℕ := 16

/-- `constexpr long SIZE = 64` — the matrix is SIZE x SIZE. -/
def SIZE : ℕ := 64

/-- `constexpr int32_t TOTAL_LENGTH = SIZE * SIZE`. -/
def TOTAL_LENGTH : ℕ := SIZE * SIZE

/-- `constexpr int32_t ROWS_PER_BLOCK = SIZE / BLOCK_DIM`. -/
def ROWS_PER_BLOCK : ℕ := SIZE / BLOCK_DIM

/-- `constexpr int32_t BLOCK_LENGTH = SIZE` — one row. -/
def BLOCK_LENGTH : ℕ := SIZE

/-- `constexpr int32_t TILE_NUM = 2`. -/
def TILE_NUM : ℕ := 2

/-- `constexpr int32_t BUFFER_NUM = 2`. -/
def BUFFER_NUM : ℕ := 2

/-- `constexpr int32_t TILE_LENGTH = BLOCK_LENGTH / TILE_NUM / BUFFER_NUM`. -/
def TILE_LENGTH : ℕ := BLOCK_LENGTH / TILE_NUM / BUFFER_NUM

/-- Base offset of execution unit `i` into the global buffers, from
`Init`: `x + BLOCK_LENGTH * ROWS_PER_BLOCK * GetBlockIdx()`. -/
def offset (i : ℕ) : ℕ := BLOCK_LENGTH * ROWS_PER_BLOCK * i

/-- Size of the region a unit actually owns: the stride between
consecutive units' base offsets, `BLOCK_LENGTH * ROWS_PER_BLOCK = 256`. -/
def regionSize : ℕ := BLOCK_LENGTH * ROWS_PER_BLOCK

/-- The set of global indices assigned to unit `i`. -/
def region (i : ℕ) : Finset ℕ := Finset.Ico (offset i) (offset i + regionSize)

/-- Size of the global view declared in `Init`'s `SetGlobalBuffer`
(second argument): `BLOCK_LENGTH * BLOCK_DIM = 1024`. -/
def viewSize : ℕ := BLOCK_LENGTH * BLOCK_DIM

/-- The global-memory index (relative to the unit's base offset) touched
by `CopyIn`/`CopyOut` for element `k` of tile `progress` of row `row`:
`row_offset + progress * TILE_LENGTH + k` with `row_offset = row * BLOCK_LENGTH`
(from `Process`). -/
def copyIndex (row progress k : ℕ) : ℕ :=
  row * BLOCK_LENGTH + progress * TILE_LENGTH + k

end Softmax04

namespace Softmax05

/-- `#define MATRIX_SIZE 96` (config.h). -/
def MATRIX_SIZE : ℕ := 96

/-- `#define TOTAL_LENGTH (MATRIX_SIZE * MATRIX_SIZE)` = 9216. -/
def TOTAL_LENGTH : ℕ := MATRIX_SIZE * MATRIX_SIZE

/-- `#define USE_CORE_NUM 96`. -/
def USE_CORE_NUM : ℕ := 96

/-- `#define BLOCK_LENGTH (TOTAL_LENGTH / USE_CORE_NUM)` = 96. -/
def BLOCK_LENGTH : ℕ := TOTAL_LENGTH / USE_CORE_NUM

/-- `#define BUFFER_NUM 2`. -/
def BUFFER_NUM : ℕ := 2

/-- `#define TILE_NUM 1`. -/
def TILE_NUM : ℕ := 1

/-- `#define TILE_LENGTH (BLOCK_LENGTH / TILE_NUM / BUFFER_NUM)` = 48. -/
def TILE_LENGTH : ℕ := BLOCK_LENGTH / TILE_NUM / BUFFER_NUM

/-- Base offset of execution unit `i`, from `Init`:
`x + BLOCK_LENGTH * GetBlockIdx()`. -/
def offset (i : ℕ) : ℕ := BLOCK_LENGTH * i

/-- Size of the region a unit owns: `BLOCK_LENGTH` (the `SetGlobalBuffer`
view size equals the stride here). -/
def regionSize : ℕ := BLOCK_LENGTH

/-- The set of global indices assigned to unit `i`. -/
def region (i : ℕ) : Finset ℕ := Finset.Ico (offset i) (offset i + regionSize)

/-- The running-maximum scan of `FindBlockMax` after `n` elements.
The C++ initializes `float blockMax = -1e38f` and iterates tiles
`i < TILE_NUM * BUFFER_NUM` and elements `j < TILE_LENGTH`, visiting the
flat indices `i * TILE_LENGTH + j = 0, 1, 2, …` in order, updating
`if (val > blockMax) blockMax = val`. -/
noncomputable def scanMax (x : ℕ → ℝ) : ℕ → ℝ
  | 0 => -(10 ^ 38)
  | n + 1 => if x n > scanMax x n then x n else scanMax x n

/-- `FindBlockMax`: the scan over the whole region of
`TILE_NUM * BUFFER_NUM * TILE_LENGTH = BLOCK_LENGTH` elements. -/
noncomputable def FindBlockMax (x : ℕ → ℝ) : ℝ := scanMax x BLOCK_LENGTH

/-- The stabilized exponentials `ComputeExpSumAndStore` writes to the
output region of global memory as scratch: `exp(x[k] - blockMax)`
(`Sub` of the broadcast max, then `Exp`). -/
noncomputable def expStore (x : ℕ → ℝ) (blockMax : ℝ) : ℕ → ℝ :=
  fun k => Real.exp (x k - blockMax)

/-- The running total `ComputeExpSumAndStore` returns: the sum of all
stabilized exponentials of the region. -/
noncomputable def totalSum (x : ℕ → ℝ) (blockMax : ℝ) : ℝ :=
  ∑ k ∈ Finset.range BLOCK_LENGTH, expStore x blockMax k

/-- `Normalize`'s guard: `float reciprocal = (totalSum > 0.0f) ?
(1.0f / totalSum) : 0.0f`. -/
noncomputable def reciprocal (t : ℝ) : ℝ := if t > 0 then 1 / t else 0

/-- `Normalize`: re-read the scratch exponentials `e` from the output
region and `Mul` them by the broadcast reciprocal of `totalSum`. -/
noncomputable def Normalize (e : ℕ → ℝ) (t : ℝ) : ℕ → ℝ :=
  fun k => e k * reciprocal t

/-- `Process`: `FindBlockMax`, then `ComputeExpSumAndStore`, then
`Normalize`; element `k` of the unit's output region. -/
noncomputable def Process (x : ℕ → ℝ) : ℕ → ℝ :=
  Normalize (expStore x (FindBlockMax x)) (totalSum x (FindBlockMax x))

end Softmax05

namespace Softmax05

theorem scanMax_zero (x : ℕ → ℝ) : scanMax x 0 = -(10 ^ 38) := rfl

theorem scanMax_succ (x : ℕ → ℝ) (n : ℕ) :
    scanMax x (n + 1) = if x n > scanMax x n then x n else scanMax x n := rfl

theorem le_scanMax_of_lt (x : ℕ → ℝ) :
    ∀ n k, k < n → x k ≤ scanMax x n := by
  intro n
  induction n with
  | zero => intro k hk; omega
  | succ m ih =>
    intro k hk
    rw [scanMax_succ]
    rcases Nat.lt_succ_iff_lt_or_eq.mp hk with h | h
    · split
      · exact le_trans (ih k h) (le_of_lt (by assumption))
      · exact ih k h
    · subst h
      split
      · exact le_refl _
      · exact le_of_not_lt (by assumption)

theorem init_le_scanMax (x : ℕ → ℝ) : ∀ n, -(10 ^ 38) ≤ scanMax x n := by
  intro n
  induction n with
  | zero => exact le_refl _
  | succ m ih =>
    rw [scanMax_succ]
    split
    · exact le_trans ih (le_of_lt (by assumption))
    · exact ih

theorem scanMax_eq_init_or_mem (x : ℕ → ℝ) :
    ∀ n, scanMax x n = -(10 ^ 38) ∨ ∃ k, k < n ∧ scanMax x n = x k := by
  intro n
  induction n with
  | zero => exact Or.inl rfl
  | succ m ih =>
    rw [scanMax_succ]
    split
    · exact Or.inr ⟨m, Nat.lt_succ_self m, rfl⟩
    · rcases ih with h | ⟨k, hk, he⟩
      · exact Or.inl h
      · exact Or.inr ⟨k, Nat.lt_succ_of_lt hk, he⟩

theorem scanMax_of_forall_le (x : ℕ → ℝ) (hx : ∀ k, x k ≤ -(10 ^ 38)) :
    ∀ n, scanMax x n = -(10 ^ 38) := by
  intro n
  induction n with
  | zero => rfl
  | succ m ih =>
    rw [scanMax_succ, ih, if_neg (not_lt.mpr (hx m))]

theorem totalSum_pos (x : ℕ → ℝ) (M : ℝ) : 0 < totalSum x M := by
  apply Finset.sum_pos
  · intro k _
    exact Real.exp_pos _
  · exact ⟨0, Finset.mem_range.mpr (by decide)⟩

theorem totalSum_eq_sum_exp_div (x : ℕ → ℝ) (M : ℝ) :
    totalSum x M =
      (∑ j ∈ Finset.range BLOCK_LENGTH, Real.exp (x j)) / Real.exp M := by
  rw [totalSum, Finset.sum_div]
  refine Finset.sum_congr rfl fun j _ => ?_
  rw [expStore, Real.exp_sub]

theorem process_eq_softmax (x : ℕ → ℝ) (k : ℕ) :
    Process x k =
      Real.exp (x k) / ∑ j ∈ Finset.range BLOCK_LENGTH, Real.exp (x j) := by
  have hS : 0 < ∑ j ∈ Finset.range BLOCK_LENGTH, Real.exp (x j) := by
    apply Finset.sum_pos
    · intro j _
      exact Real.exp_pos _
    · exact ⟨0, Finset.mem_range.mpr (by decide)⟩
  have hpos := totalSum_pos x (FindBlockMax x)
  rw [Process, Normalize, reciprocal, if_pos hpos, expStore,
    totalSum_eq_sum_exp_div, Real.exp_sub]
  rw [one_div_div]
  field_simp

end Softmax05

/-- Claim C1: for every Variant B input region whose sum of stabilized
exponentials is positive, the output region is elementwise
`exp(x[k] - max) / totalSum`, the output region sums to 1 exactly (in
the real-arithmetic model), and every output element lies in `[0, 1]`. -/
theorem variantB_softmax_correct (x : ℕ → ℝ)
    (h : 0 < Softmax05.totalSum x (Softmax05.FindBlockMax x)) :
    (∀ k, k < Softmax05.BLOCK_LENGTH →
      Softmax05.Process x k =
        Real.exp (x k - Softmax05.FindBlockMax x) /
          Softmax05.totalSum x (Softmax05.FindBlockMax x)) ∧
    (∑ k ∈ Finset.range Softmax05.BLOCK_LENGTH, Softmax05.Process x k = 1) ∧
    (∀ k, k < Softmax05.BLOCK_LENGTH →
      0 ≤ Softmax05.Process x k ∧ Softmax05.Process x k ≤ 1) := by
  have hproc : ∀ k, Softmax05.Process x k =
      Softmax05.expStore x (Softmax05.FindBlockMax x) k /
        Softmax05.totalSum x (Softmax05.FindBlockMax x) := by
    intro k
    rw [Softmax05.Process, Softmax05.Normalize, Softmax05.reciprocal,
      if_pos h, mul_one_div]
  refine ⟨?_, ?_, ?_⟩
  · intro k _
    rw [hproc k, Softmax05.expStore]
  · rw [Finset.sum_congr rfl fun k _ => hproc k, ← Finset.sum_div]
    exact div_self (ne_of_gt (by exact h))
  · intro k hk
    constructor
    · rw [hproc k]
      exact div_nonneg (Real.exp_pos _).le h.le
    · rw [hproc k]
      rw [div_le_one h, Softmax05.totalSum]
      exact Finset.single_le_sum
        (fun j _ => show (0 : ℝ) ≤
          Softmax05.expStore x (Softmax05.FindBlockMax x) j from
            (Real.exp_pos _).le)
        (Finset.mem_range.mpr hk)

/-- Witness for C1 at the all-zero region. -/
theorem variantB_softmax_correct_witness :
    0 < Softmax05.totalSum (fun _ => (0 : ℝ))
        (Softmax05.FindBlockMax (fun _ => (0 : ℝ))) ∧
    ∑ k ∈ Finset.range Softmax05.BLOCK_LENGTH,
      Softmax05.Process (fun _ => (0 : ℝ)) k = 1 :=
  ⟨Softmax05.totalSum_pos _ _,
   (variantB_softmax_correct _ (Softmax05.totalSum_pos _ _)).2.1⟩

/-- Claim C7: Variant B is shift invariant — adding a scalar `c` to
every element of an input region does not change any output element. -/
theorem variantB_shift_invariant (x : ℕ → ℝ) (c : ℝ) (k : ℕ) :
    Softmax05.Process (fun n => x n + c) k = Softmax05.Process x k := by
  have hS : 0 < ∑ j ∈ Finset.range Softmax05.BLOCK_LENGTH, Real.exp (x j) := by
    apply Finset.sum_pos
    · intro j _
      exact Real.exp_pos _
    · exact ⟨0, Finset.mem_range.mpr (by decide)⟩
  rw [Softmax05.process_eq_softmax, Softmax05.process_eq_softmax]
  rw [Finset.sum_congr rfl fun j _ => Real.exp_add (x j) c, ← Finset.sum_mul,
    Real.exp_add]
  rw [mul_div_mul_right _ _ (Real.exp_ne_zero c)]

namespace Softmax04

/-- The accumulator tile `tmpCalc` at the end of pass 1 for the row at
offset `rowOffset`: `Duplicate(tmpCalc, 0.0f)` then, for each tile `i`,
`ComputeSum` does `Exp(xLocal, xLocal)` and `Add(tmpCalc, tmpCalc,
xLocal)`, so lane `j` holds the sum over tiles of `exp x`. -/
noncomputable def tmpCalcFinal (x : ℕ → ℝ) (rowOffset j : ℕ) : ℝ :=
  ∑ i ∈ Finset.range (TILE_NUM * BUFFER_NUM),
    Real.exp (x (rowOffset + i * TILE_LENGTH + j))

/-- The `ReduceSum` of the accumulator tile: the row's total sum of
exponentials, subsequently `Broadcast` into every lane of `tmpCalc`. -/
noncomputable def rowTotal (x : ℕ → ℝ) (rowOffset : ℕ) : ℝ :=
  ∑ j ∈ Finset.range TILE_LENGTH, tmpCalcFinal x rowOffset j

/-- Pass 2 `ComputeSoftmax` on element `j` of tile `i`: the tile is
re-read from global memory (`CopyIn` again), `Exp` is recomputed, and
the result is `Div`ided by the broadcast row sum. -/
noncomputable def ComputeSoftmax (x : ℕ → ℝ) (rowOffset i j : ℕ) : ℝ :=
  Real.exp (x (rowOffset + i * TILE_LENGTH + j)) / rowTotal x rowOffset

/-- The unit's output at local index `idx` after `Process`: `idx` lies
in row `idx / BLOCK_LENGTH`, tile `(idx % BLOCK_LENGTH) / TILE_LENGTH`,
lane `(idx % BLOCK_LENGTH) % TILE_LENGTH`, and `CopyOut` writes
`ComputeSoftmax` there. -/
noncomputable def Process (x : ℕ → ℝ) (idx : ℕ) : ℝ :=
  ComputeSoftmax x (idx / BLOCK_LENGTH * BLOCK_LENGTH)
    (idx % BLOCK_LENGTH / TILE_LENGTH) (idx % BLOCK_LENGTH % TILE_LENGTH)

theorem sum_range_mul_split (f : ℕ → ℝ) (a b : ℕ) :
    ∑ m ∈ Finset.range (a * b), f m =
      ∑ i ∈ Finset.range a, ∑ j ∈ Finset.range b, f (i * b + j) := by
  induction a with
  | zero => simp
  | succ n ih =>
    rw [Nat.succ_mul, Finset.sum_range_add, ih, Finset.sum_range_succ]

theorem rowTotal_eq (x : ℕ → ℝ) (ro : ℕ) :
    rowTotal x ro =
      ∑ m ∈ Finset.range BLOCK_LENGTH, Real.exp (x (ro + m)) := by
  simp only [rowTotal, tmpCalcFinal]
  rw [Finset.sum_comm]
  rw [show Finset.range BLOCK_LENGTH =
    Finset.range (TILE_NUM * BUFFER_NUM * TILE_LENGTH) from by decide]
  rw [sum_range_mul_split (fun m => Real.exp (x (ro + m)))
    (TILE_NUM * BUFFER_NUM) TILE_LENGTH]
  simp only [Nat.add_assoc]

end Softmax04

/-- Claim C2: in Variant A the second pass re-reads the raw input tile,
recomputes the elementwise exponential and divides by the broadcast row
sum of pass 1, so output element `j` of tile `i` of row `row` equals
`exp x` at that position divided by the sum of `exp x` over the row. -/
theorem variantA_second_pass (x : ℕ → ℝ) (row i j : ℕ)
    (_hrow : row < Softmax04.ROWS_PER_BLOCK)
    (hi : i < Softmax04.TILE_NUM * Softmax04.BUFFER_NUM)
    (hj : j < Softmax04.TILE_LENGTH) :
    Softmax04.Process x
        (row * Softmax04.BLOCK_LENGTH + i * Softmax04.TILE_LENGTH + j) =
      Real.exp
          (x (row * Softmax04.BLOCK_LENGTH + i * Softmax04.TILE_LENGTH + j)) /
        ∑ m ∈ Finset.range Softmax04.BLOCK_LENGTH,
          Real.exp (x (row * Softmax04.BLOCK_LENGTH + m)) := by
  simp only [Softmax04.TILE_NUM, Softmax04.BUFFER_NUM,
    Softmax04.TILE_LENGTH, Softmax04.BLOCK_LENGTH, Softmax04.SIZE,
    Softmax04.BLOCK_DIM] at hi hj
  have h1 : (row * Softmax04.BLOCK_LENGTH + i * Softmax04.TILE_LENGTH + j) /
      Softmax04.BLOCK_LENGTH = row := by
    simp only [Softmax04.BLOCK_LENGTH, Softmax04.SIZE, Softmax04.TILE_LENGTH,
      Softmax04.TILE_NUM, Softmax04.BUFFER_NUM]
    omega
  have h2 : (row * Softmax04.BLOCK_LENGTH + i * Softmax04.TILE_LENGTH + j) %
      Softmax04.BLOCK_LENGTH = i * Softmax04.TILE_LENGTH + j := by
    simp only [Softmax04.BLOCK_LENGTH, Softmax04.SIZE, Softmax04.TILE_LENGTH,
      Softmax04.TILE_NUM, Softmax04.BUFFER_NUM]
    omega
  have h3 : (i * Softmax04.TILE_LENGTH + j) / Softmax04.TILE_LENGTH = i := by
    simp only [Softmax04.TILE_LENGTH, Softmax04.TILE_NUM, Softmax04.BUFFER_NUM,
      Softmax04.BLOCK_LENGTH, Softmax04.SIZE]
    omega
  have h4 : (i * Softmax04.TILE_LENGTH + j) % Softmax04.TILE_LENGTH = j := by
    simp only [Softmax04.TILE_LENGTH, Softmax04.TILE_NUM, Softmax04.BUFFER_NUM,
      Softmax04.BLOCK_LENGTH, Softmax04.SIZE]
    omega
  rw [Softmax04.Process, h1, h2, h3, h4, Softmax04.ComputeSoftmax,
    Softmax04.rowTotal_eq]

/-- Witness for C2 at the all-zero input, row 0, tile 0, lane 0. -/
theorem variantA_second_pass_witness :
    Softmax04.Process (fun _ => (0 : ℝ))
        (0 * Softmax04.BLOCK_LENGTH + 0 * Softmax04.TILE_LENGTH + 0) =
      Real.exp 0 /
        ∑ _m ∈ Finset.range Softmax04.BLOCK_LENGTH, Real.exp (0 : ℝ) :=
  variantA_second_pass (fun _ => (0 : ℝ)) 0 0 0 (by decide) (by decide)
    (by decide)

/-- Claim C10: row-wise noninterference of the 04 kernel — the sum
accumulator is zeroed at the start of each row's pass, so output row
`row` depends only on input row `row`: two inputs agreeing on that row
produce identical outputs there. -/
theorem variantA_row_noninterference (x y : ℕ → ℝ) (row : ℕ)
    (_hrow : row < Softmax04.ROWS_PER_BLOCK)
    (hagree : ∀ m, m < Softmax04.BLOCK_LENGTH →
      x (row * Softmax04.BLOCK_LENGTH + m) =
        y (row * Softmax04.BLOCK_LENGTH + m))
    (m : ℕ) (hm : m < Softmax04.BLOCK_LENGTH) :
    Softmax04.Process x (row * Softmax04.BLOCK_LENGTH + m) =
      Softmax04.Process y (row * Softmax04.BLOCK_LENGTH + m) := by
  have h1 : (row * Softmax04.BLOCK_LENGTH + m) / Softmax04.BLOCK_LENGTH
      = row := by
    simp only [Softmax04.BLOCK_LENGTH, Softmax04.SIZE] at hm ⊢
    omega
  have h2 : (row * Softmax04.BLOCK_LENGTH + m) % Softmax04.BLOCK_LENGTH
      = m := by
    simp only [Softmax04.BLOCK_LENGTH, Softmax04.SIZE] at hm ⊢
    omega
  have h3 : row * Softmax04.BLOCK_LENGTH +
      m / Softmax04.TILE_LENGTH * Softmax04.TILE_LENGTH +
      m % Softmax04.TILE_LENGTH = row * Softmax04.BLOCK_LENGTH + m := by
    simp only [Softmax04.BLOCK_LENGTH, Softmax04.SIZE, Softmax04.TILE_LENGTH,
      Softmax04.TILE_NUM, Softmax04.BUFFER_NUM]
    omega
  have hrt : Softmax04.rowTotal x (row * Softmax04.BLOCK_LENGTH) =
      Softmax04.rowTotal y (row * Softmax04.BLOCK_LENGTH) := by
    simp only [Softmax04.rowTotal, Softmax04.tmpCalcFinal]
    refine Finset.sum_congr rfl fun j hj => Finset.sum_congr rfl fun i hi => ?_
    rw [Finset.mem_range] at hj hi
    rw [Nat.add_assoc,
      hagree (i * Softmax04.TILE_LENGTH + j) (by
        simp only [Softmax04.TILE_LENGTH, Softmax04.TILE_NUM,
          Softmax04.BUFFER_NUM, Softmax04.BLOCK_LENGTH,
          Softmax04.SIZE] at hi hj ⊢
        omega)]
  rw [Softmax04.Process, Softmax04.Process, h1, h2, Softmax04.ComputeSoftmax,
    Softmax04.ComputeSoftmax, h3, hagree m hm, hrt]

/-- Witness for C10: two inputs agreeing on row 0 but not elsewhere. -/
theorem variantA_row_noninterference_witness :
    Softmax04.Process (fun _ => (0 : ℝ))
        (0 * Softmax04.BLOCK_LENGTH + 0) =
      Softmax04.Process
        (fun n => if n < Softmax04.BLOCK_LENGTH then (0 : ℝ) else 1)
        (0 * Softmax04.BLOCK_LENGTH + 0) :=
  variantA_row_noninterference (fun _ => (0 : ℝ))
    (fun n => if n < Softmax04.BLOCK_LENGTH then (0 : ℝ) else 1) 0
    (by decide) (fun m hm => by simp [hm]) 0 (by decide)



/-- Claim C3: in Variant B's `Normalize`, a total of exactly `0` gives
reciprocal `0` and an all-zero output region (no NaN), and every
positive total gives reciprocal `1/total`. -/
theorem normalize_zero_guard (e : ℕ → ℝ) (t : ℝ) :
    Softmax05.reciprocal 0 = 0 ∧
    (∀ k, Softmax05.Normalize e 0 k = 0) ∧
    (0 < t → Softmax05.reciprocal t = 1 / t) := by
  refine ⟨?_, ?_, ?_⟩
  · simp [Softmax05.reciprocal]
  · intro k
    simp [Softmax05.Normalize, Softmax05.reciprocal]
  · intro ht
    simp [Softmax05.reciprocal, ht]

/-- Witness for C3 at a concrete scratch region and total. -/
theorem normalize_zero_guard_witness :
    Softmax05.Normalize (fun _ => (5 : ℝ)) 0 3 = 0 ∧
    Softmax05.reciprocal 2 = 1 / 2 :=
  ⟨(normalize_zero_guard (fun _ => (5 : ℝ)) 2).2.1 3,
   (normalize_zero_guard (fun _ => (5 : ℝ)) 2).2.2 (by norm_num)⟩

/-- Counterexample for C4: on the all-`-1e38` region the Variant B
kernel does not output zeros — the stabilized exponentials are all
`exp 0 = 1`, the total is `96 > 0`, and the output is uniform. -/
theorem all_neg1e38_region_cex :
    Softmax05.Process (fun _ => -(10 ^ 38)) 0 ≠ 0 := by
  have hmax : Softmax05.FindBlockMax (fun _ => -(10 ^ 38)) = -(10 ^ 38) :=
    Softmax05.scanMax_of_forall_le _ (fun _ => le_refl _) _
  have hexp : ∀ k, Softmax05.expStore (fun _ => -(10 ^ 38))
      (Softmax05.FindBlockMax (fun _ => -(10 ^ 38))) k = 1 := by
    intro k
    rw [Softmax05.expStore, hmax]
    simp
  have htot : Softmax05.totalSum (fun _ => -(10 ^ 38))
      (Softmax05.FindBlockMax (fun _ => -(10 ^ 38))) = 96 := by
    rw [Softmax05.totalSum]
    rw [Finset.sum_congr rfl (fun k _ => hexp k)]
    simp [Softmax05.BLOCK_LENGTH, Softmax05.TOTAL_LENGTH,
      Softmax05.MATRIX_SIZE, Softmax05.USE_CORE_NUM]
  rw [Softmax05.Process, Softmax05.Normalize, hexp 0, htot]
  simp [Softmax05.reciprocal]

/-- Claim C4 (amended): if every element of a unit's input region equals
`-1e38`, the Variant B kernel outputs the uniform value
`1 / BLOCK_LENGTH = 1/96` at every region position (not zeros and not
NaN): the guard does not fire because the stabilized total is `96`. -/
theorem all_neg1e38_region_uniform (k : ℕ) (_hk : k < Softmax05.BLOCK_LENGTH) :
    Softmax05.Process (fun _ => -(10 ^ 38)) k = 1 / (Softmax05.BLOCK_LENGTH : ℝ) := by
  have hmax : Softmax05.FindBlockMax (fun _ => -(10 ^ 38)) = -(10 ^ 38) :=
    Softmax05.scanMax_of_forall_le _ (fun _ => le_refl _) _
  have hexp : ∀ m, Softmax05.expStore (fun _ => -(10 ^ 38))
      (Softmax05.FindBlockMax (fun _ => -(10 ^ 38))) m = 1 := by
    intro m
    rw [Softmax05.expStore, hmax]
    simp
  have htot : Softmax05.totalSum (fun _ => -(10 ^ 38))
      (Softmax05.FindBlockMax (fun _ => -(10 ^ 38))) = 96 := by
    rw [Softmax05.totalSum]
    rw [Finset.sum_congr rfl (fun m _ => hexp m)]
    simp [Softmax05.BLOCK_LENGTH, Softmax05.TOTAL_LENGTH,
      Softmax05.MATRIX_SIZE, Softmax05.USE_CORE_NUM]
  rw [Softmax05.Process, Softmax05.Normalize, hexp k, htot]
  simp [Softmax05.reciprocal, Softmax05.BLOCK_LENGTH, Softmax05.TOTAL_LENGTH,
    Softmax05.MATRIX_SIZE, Softmax05.USE_CORE_NUM]

/-- Witness for C4 (amended) at region position 0. -/
theorem all_neg1e38_region_uniform_witness :
    Softmax05.Process (fun _ => -(10 ^ 38)) 0 = 1 / (Softmax05.BLOCK_LENGTH : ℝ) :=
  all_neg1e38_region_uniform 0 (by decide)

/-- Counterexample for C5: `FindBlockMax` is initialized at `-1e38`,
which is not the most negative representable 32-bit float
(`-(2^128 - 2^104)`), and on the all-`-2e38` region of finite values it
returns `-1e38` instead of the true maximum `-2e38`. -/
theorem findmax_init_cex :
    Softmax05.FindBlockMax (fun _ => -(2 * 10 ^ 38)) ≠ -(2 * 10 ^ 38) ∧
    Softmax05.scanMax (fun _ => (0 : ℝ)) 0 ≠ -((2 : ℝ) ^ 128 - 2 ^ 104) := by
  constructor
  · rw [Softmax05.FindBlockMax,
      Softmax05.scanMax_of_forall_le _ (fun _ => by norm_num) _]
    norm_num
  · rw [Softmax05.scanMax_zero]
    norm_num

/-- Claim C5 (amended): `FindBlockMax` initializes its running maximum
to `-1e38`; for every region whose maximum is at least `-1e38` it
returns the true maximum of the region's elements (an upper bound that
is attained), and an element equal to the current running maximum does
not change it. -/
theorem findmax_correct (x : ℕ → ℝ)
    (h : ∃ k, k < Softmax05.BLOCK_LENGTH ∧ -(10 ^ 38) ≤ x k) :
    Softmax05.scanMax x 0 = -(10 ^ 38) ∧
    (∀ k, k < Softmax05.BLOCK_LENGTH → x k ≤ Softmax05.FindBlockMax x) ∧
    (∃ k, k < Softmax05.BLOCK_LENGTH ∧ Softmax05.FindBlockMax x = x k) ∧
    (∀ n, x n = Softmax05.scanMax x n →
      Softmax05.scanMax x (n + 1) = Softmax05.scanMax x n) := by
  refine ⟨rfl, ?_, ?_, ?_⟩
  · intro k hk
    exact Softmax05.le_scanMax_of_lt x _ k hk
  · rcases Softmax05.scanMax_eq_init_or_mem x Softmax05.BLOCK_LENGTH with he | hm
    · rcases h with ⟨k, hk, hxk⟩
      refine ⟨k, hk, le_antisymm ?_ ?_⟩
      · rw [Softmax05.FindBlockMax, he]
        exact hxk
      · exact Softmax05.le_scanMax_of_lt x _ k hk
    · exact hm
  · intro n hn
    rw [Softmax05.scanMax_succ, if_neg (by rw [← hn]; exact lt_irrefl _)]

/-- Witness for C5 (amended) on the all-zero region. -/
theorem findmax_correct_witness :
    ∃ k, k < Softmax05.BLOCK_LENGTH ∧
      Softmax05.FindBlockMax (fun _ => (0 : ℝ)) = (fun _ => (0 : ℝ)) k :=
  (findmax_correct (fun _ => (0 : ℝ)) ⟨0, by decide, by norm_num⟩).2.2.1


/-- Claim C6: for every unit index `i`, the Work Partitioner of each
kernel computes base offset `regionSize * i`; for `i ≠ j` the assigned
regions `[regionSize*i, regionSize*(i+1))` are disjoint, and their union
over all unit indices exactly covers `[0, TOTAL_LENGTH)`. -/
theorem partitioner_offset_disjoint_cover :
    (∀ i : ℕ, Softmax04.offset i = Softmax04.regionSize * i) ∧
    (∀ i j : ℕ, i ≠ j → Disjoint (Softmax04.region i) (Softmax04.region j)) ∧
    (Finset.range Softmax04.BLOCK_DIM).biUnion Softmax04.region =
      Finset.range Softmax04.TOTAL_LENGTH ∧
    (∀ i : ℕ, Softmax05.offset i = Softmax05.regionSize * i) ∧
    (∀ i j : ℕ, i ≠ j → Disjoint (Softmax05.region i) (Softmax05.region j)) ∧
    (Finset.range Softmax05.USE_CORE_NUM).biUnion Softmax05.region =
      Finset.range Softmax05.TOTAL_LENGTH := by
  refine ⟨fun i => rfl, ?_, ?_, fun i => rfl, ?_, ?_⟩
  · intro i j hij
    rw [Finset.disjoint_left]
    intro a ha hb
    apply hij
    simp only [Softmax04.region, Softmax04.offset, Softmax04.regionSize,
      Softmax04.BLOCK_LENGTH, Softmax04.ROWS_PER_BLOCK, Softmax04.SIZE,
      Softmax04.BLOCK_DIM, Finset.mem_Ico] at ha hb
    omega
  · ext a
    simp only [Finset.mem_biUnion, Finset.mem_range, Softmax04.region,
      Softmax04.offset, Softmax04.regionSize, Softmax04.BLOCK_LENGTH,
      Softmax04.ROWS_PER_BLOCK, Softmax04.SIZE, Softmax04.BLOCK_DIM,
      Softmax04.TOTAL_LENGTH, Finset.mem_Ico]
    constructor
    · rintro ⟨i, hi, h1, h2⟩
      omega
    · intro h
      exact ⟨a / 256, by omega, by omega, by omega⟩
  · intro i j hij
    rw [Finset.disjoint_left]
    intro a ha hb
    apply hij
    simp only [Softmax05.region, Softmax05.offset, Softmax05.regionSize,
      Softmax05.BLOCK_LENGTH, Softmax05.TOTAL_LENGTH, Softmax05.MATRIX_SIZE,
      Softmax05.USE_CORE_NUM, Finset.mem_Ico] at ha hb
    omega
  · ext a
    simp only [Finset.mem_biUnion, Finset.mem_range, Softmax05.region,
      Softmax05.offset, Softmax05.regionSize, Softmax05.BLOCK_LENGTH,
      Softmax05.TOTAL_LENGTH, Softmax05.MATRIX_SIZE, Softmax05.USE_CORE_NUM,
      Finset.mem_Ico]
    constructor
    · rintro ⟨i, hi, h1, h2⟩
      omega
    · intro h
      exact ⟨a / 96, by omega, by omega, by omega⟩

/-- Witness for C6: disjointness instantiated at concrete unit pairs. -/
theorem partitioner_offset_disjoint_cover_witness :
    Disjoint (Softmax04.region 0) (Softmax04.region 1) ∧
    Disjoint (Softmax05.region 2) (Softmax05.region 3) :=
  ⟨partitioner_offset_disjoint_cover.2.1 0 1 (by norm_num),
   partitioner_offset_disjoint_cover.2.2.2.2.1 2 3 (by norm_num)⟩

/-- Counterexample for C8: in the 04 kernel a unit's assigned region has
256 elements (4 rows of 64), while `TILE_NUM * BUFFER_NUM * TILE_LENGTH
= 64`, so the claimed identity fails for that kernel's units. -/
theorem region_size_tile_identity_cex :
    Softmax04.regionSize ≠
      Softmax04.TILE_NUM * Softmax04.BUFFER_NUM * Softmax04.TILE_LENGTH := by
  decide

/-- Claim C8 (amended): `TILE_NUM * BUFFER_NUM * TILE_LENGTH` equals
`BLOCK_LENGTH` in both kernels — in the 05 kernel this is exactly the
unit's region size, while in the 04 kernel it is the size of one row and
the unit's region is `ROWS_PER_BLOCK` such rows. -/
theorem region_size_tile_identity :
    Softmax05.regionSize =
      Softmax05.TILE_NUM * Softmax05.BUFFER_NUM * Softmax05.TILE_LENGTH ∧
    Softmax04.BLOCK_LENGTH =
      Softmax04.TILE_NUM * Softmax04.BUFFER_NUM * Softmax04.TILE_LENGTH ∧
    Softmax04.regionSize =
      Softmax04.ROWS_PER_BLOCK *
        (Softmax04.TILE_NUM * Softmax04.BUFFER_NUM * Softmax04.TILE_LENGTH) := by
  decide

/-- Claim C9: every global index touched by the 04 kernel's
`CopyIn`/`CopyOut` — `row_offset + progress*TILE_LENGTH + k` with
`row < ROWS_PER_BLOCK`, `progress < TILE_NUM*BUFFER_NUM`,
`k < TILE_LENGTH` — lies inside `[0, regionSize) = [0, 256)` relative to
the unit's base offset, even though the declared global view is the
larger `BLOCK_LENGTH * BLOCK_DIM = 1024`. -/
theorem copy_index_in_region (row progress k : ℕ)
    (hr : row < Softmax04.ROWS_PER_BLOCK)
    (hp : progress < Softmax04.TILE_NUM * Softmax04.BUFFER_NUM)
    (hk : k < Softmax04.TILE_LENGTH) :
    Softmax04.copyIndex row progress k < Softmax04.regionSize ∧
    Softmax04.regionSize ≤ Softmax04.viewSize := by
  simp only [Softmax04.copyIndex, Softmax04.regionSize, Softmax04.viewSize,
    Softmax04.ROWS_PER_BLOCK, Softmax04.TILE_NUM, Softmax04.BUFFER_NUM,
    Softmax04.TILE_LENGTH, Softmax04.BLOCK_LENGTH, Softmax04.SIZE,
    Softmax04.BLOCK_DIM] at *
  omega

/-- Witness for C9 at a concrete tile coordinate. -/
theorem copy_index_in_region_witness :
    Softmax04.copyIndex 3 3 15 < Softmax04.regionSize ∧
    Softmax04.regionSize ≤ Softmax04.viewSize :=
  copy_index_in_region 3 3 15 (by decide) (by decide) (by decide)
